import Mathlib

/-!
Shallow embedding of the `TreatmentPlanner` knowledge-repository and
keyword-search logic of `src/main.py`, together with proofs of the
spec's testable properties.

Modelling conventions:
* JSON objects become structures; optional keys (read with `dict.get`
  and a default in the source) become `Option` fields, with the default
  applied via `Option.getD` exactly at the call sites where the source
  applies it.
* A variant record's extra fields (scanned by `get_patient_groups` via
  `variant.items()`) are an association list `fields`; a value that is a
  JSON list of group objects is `FieldVal.groups`, any non-list value is
  `FieldVal.scalar`.  The fixed keys `name` / `ICD-10_code` never pass
  the `startswith("varik")` test, so keeping them as separate structure
  fields does not change the scan's result.
* Python's substring test `a in b` is `occursIn`; `str.lower` is
  `pyLower`; `key.startswith(p)` is `str_starts p key`.
* Python's `if joint:` truthiness test on the joint-methods dict is
  `jointTruthy` (the dict is non-empty iff at least one of its keys is
  present).
-/

namespace BaseView

/-- Boolean test that the first character list is an initial segment of
the second (used for Python's `startswith` and as the inner step of the
substring test). -/
def leadsWith : List Char → List Char → Bool
  | [], _ => true
  | _ :: _, [] => false
  | p :: ps, c :: cs => p == c && leadsWith ps cs

/-- Boolean substring occurrence test on character lists: Python's
`pat in s`. -/
def occursIn (pat : List Char) : List Char → Bool
  | [] => pat.isEmpty
  | c :: cs => leadsWith pat (c :: cs) || occursIn pat cs

/-- Python `str.lower`, modelled as the character-wise case map (the
documents and keywords the claims touch are case-mapped per character). -/
def pyLower (s : String) : String :=
  ⟨s.data.map Char.toLower⟩

/-- Python `pre_lowered_keyword in str(field).lower()`: `kl` is the
already-lowercased keyword, the field is lowercased here. -/
def kwInStr (kl : String) (s : String) : Bool :=
  occursIn kl.toList (pyLower s).toList

/-- Python `key.startswith(p)`. -/
def str_starts (p : String) (k : String) : Bool :=
  leadsWith p.toList k.toList

/-- A treatment method object (`name method`, `indications`, ...); all
keys are read with defaults in the source, so all fields are optional. -/
structure Method where
  nameMethod : Option String
  indications : Option (List String)
  medicines : Option (List String)
  usedMaterial : Option (List String)
  recommendations : Option String
  pages : Option (List String)
  persuasiveness : Option String
  evidence : Option String
deriving DecidableEq

/-- A `joint methods` block: block-level `indications` and
`recommendations` plus the contained `methods` list. -/
structure Joint where
  indications : Option (List String)
  recommendations : Option String
  methods : Option (List Method)
deriving DecidableEq

/-- A stage: `name_stage` is accessed with `stage["name_stage"]`
(required), the method collections with `.get` (optional). -/
structure Stage where
  name_stage : String
  alternativeMethods : Option (List Method)
  jointMethods : Option Joint
deriving DecidableEq

/-- A patient group: `patients_indications` and `stage` are both read
with `.get` and a default. -/
structure Group where
  patients_indications : Option String
  stage : Option (List Stage)
deriving DecidableEq

/-- Value of a non-fixed key of a variant record: either a JSON list of
group objects, or any non-list value (whose content is never
inspected — `isinstance(value, list)` fails on it). -/
inductive FieldVal where
  | groups (gs : List Group)
  | scalar (s : String)
deriving DecidableEq

/-- A variant record: required `name` and `ICD-10_code`, plus the
association list of remaining keys scanned by `get_patient_groups`. -/
structure Variant where
  name : String
  icd : String
  fields : List (String × FieldVal)
deriving DecidableEq

/-- A disease record: required `name` and `type_variant`. -/
structure Disease where
  name : String
  type_variant : List Variant
deriving DecidableEq

/-- The loaded knowledge base: top-level key `disease`. -/
structure KnowledgeBase where
  disease : List Disease
deriving DecidableEq

/-- An entry returned by `get_patient_groups`: synthetic `id`,
display `description`, and the underlying group `data`. -/
structure GroupEntry where
  id : String
  description : String
  data : Group
deriving DecidableEq

/-- A search result record as built by `_format_method_result` /
`_format_joint_result`.  `joint_methods` is `none` for alternative
results (the Python dict lacks the key there). -/
structure Result where
  method : String
  disease : String
  variant : String
  group : String
  stage : String
  indications : List String
  medicines : List String
  materials : List String
  recommendations : String
  pages : List String
  persuasiveness : String
  evidence : String
  rtype : String
  joint_methods : Option (List Method)
deriving DecidableEq

/-- The record returned by `get_group_plan`. -/
structure GroupPlan where
  variant : String
  group_description : String
  stages : List Stage
deriving DecidableEq

/-- `get_diseases`: the list of disease names, in document order. -/
def get_diseases (kb : KnowledgeBase) : List String :=
  kb.disease.map Disease.name

/-- The `for`-loop of `get_disease_variants`: return the first disease
whose name matches, else fall through to `[]`. -/
def variantScan : List Disease → String → List Variant
  | [], _ => []
  | d :: ds, n => if d.name = n then d.type_variant else variantScan ds n

/-- `get_disease_variants`. -/
def get_disease_variants (kb : KnowledgeBase) (disease_name : String) : List Variant :=
  variantScan kb.disease disease_name

/-- The synthetic group id `f"{key}_{idx}"`. -/
def mkId (k : String) (i : Nat) : String :=
  k ++ "_" ++ Nat.repr i

/-- One entry appended by the inner loop of `get_patient_groups`. -/
def mkGroupEntry (k : String) (i : Nat) (g : Group) : GroupEntry :=
  { id := mkId k i
    description := g.patients_indications.getD "Описание отсутствует"
    data := g }

/-- The `for idx, group in enumerate(value)` loop, starting at index `i`. -/
def entriesFrom (k : String) : Nat → List Group → List GroupEntry
  | _, [] => []
  | i, g :: gs => mkGroupEntry k i g :: entriesFrom k (i + 1) gs

/-- Contribution of one `(key, value)` pair of the variant record:
non-empty only when the key starts with `"varik"` and the value is a
non-empty list. -/
def fieldEntries : String × FieldVal → List GroupEntry
  | (k, .groups gs) =>
      if str_starts "varik" k && decide (0 < gs.length) then entriesFrom k 0 gs else []
  | (_, .scalar _) => []

/-- `get_patient_groups`. -/
def get_patient_groups (v : Variant) : List GroupEntry :=
  v.fields.flatMap fieldEntries

/-- `get_group_plan`. -/
def get_group_plan (variant_name : String) (group_data : Group) : GroupPlan :=
  { variant := variant_name
    group_description := group_data.patients_indications.getD ""
    stages := group_data.stage.getD [] }

/-- The field list built by `_method_matches`. -/
def methodFields (m : Method) : List String :=
  m.nameMethod.getD "" ::
    (m.indications.getD [] ++ m.medicines.getD [] ++ m.usedMaterial.getD [] ++
      [m.recommendations.getD ""])

/-- `_method_matches` (with `kl` the pre-lowercased keyword). -/
def method_matches (m : Method) (kl : String) : Bool :=
  (methodFields m).any (fun f => kwInStr kl f)

/-- Python truthiness of the joint-methods dict: non-empty iff at least
one of its keys is present. -/
def jointTruthy (j : Joint) : Bool :=
  j.indications.isSome || j.recommendations.isSome || j.methods.isSome

/-- The per-contained-method field list of `_joint_matches`. -/
def jointMethodFields (m : Method) : List String :=
  m.nameMethod.getD "" :: (m.medicines.getD [] ++ m.usedMaterial.getD [])

/-- `_joint_matches` (with `kl` the pre-lowercased keyword). -/
def joint_matches (j : Joint) (kl : String) : Bool :=
  (j.indications.getD [] ++ [j.recommendations.getD ""]).any (fun f => kwInStr kl f)
  || (j.methods.getD []).any (fun m => (jointMethodFields m).any (fun f => kwInStr kl f))

/-- `_format_method_result`. -/
def format_method_result (m : Method) (d : Disease) (v : Variant) (grp : GroupEntry)
    (stage_name : String) (method_type : String) : Result :=
  { method := m.nameMethod.getD "Без названия"
    disease := d.name
    variant := v.name
    group := grp.description
    stage := stage_name
    indications := m.indications.getD []
    medicines := m.medicines.getD []
    materials := m.usedMaterial.getD []
    recommendations := m.recommendations.getD ""
    pages := m.pages.getD []
    persuasiveness := m.persuasiveness.getD ""
    evidence := m.evidence.getD ""
    rtype := method_type
    joint_methods := none }

/-- `_format_joint_result`. -/
def format_joint_result (j : Joint) (d : Disease) (v : Variant) (grp : GroupEntry)
    (stage_name : String) : Result :=
  let method_names := (j.methods.getD []).map (fun m => m.nameMethod.getD "Без названия")
  let methods_str := if method_names.isEmpty then "Не указаны"
                     else String.intercalate ", " method_names
  { method := "Совместные методы: " ++ methods_str
    disease := d.name
    variant := v.name
    group := grp.description
    stage := stage_name
    indications := j.indications.getD []
    medicines := []
    materials := []
    recommendations := j.recommendations.getD ""
    pages := []
    persuasiveness := ""
    evidence := ""
    rtype := "joint"
    joint_methods := some (j.methods.getD []) }

/-- Alternative-method results contributed by one stage, in list order. -/
def alt_part (d : Disease) (v : Variant) (grp : GroupEntry) (kl : String)
    (st : Stage) : List Result :=
  ((st.alternativeMethods.getD []).filter (fun m => method_matches m kl)).map
    (fun m => format_method_result m d v grp st.name_stage "alternative")

/-- Joint-block result contributed by one stage: present iff the block
is truthy and matches. -/
def joint_part (d : Disease) (v : Variant) (grp : GroupEntry) (kl : String)
    (st : Stage) : List Result :=
  match st.jointMethods with
  | some j =>
      if jointTruthy j && joint_matches j kl then
        [format_joint_result j d v grp st.name_stage]
      else []
  | none => []

/-- Results contributed by one stage: the matching alternative methods
in list order, then the joint block if it is truthy and matches. -/
def stage_results (d : Disease) (v : Variant) (grp : GroupEntry) (kl : String)
    (st : Stage) : List Result :=
  alt_part d v grp kl st ++ joint_part d v grp kl st

/-- Results contributed by one patient-group entry. -/
def group_results (d : Disease) (v : Variant) (kl : String) (grp : GroupEntry) :
    List Result :=
  (grp.data.stage.getD []).flatMap (stage_results d v grp kl)

/-- Results contributed by one variant. -/
def variant_results (d : Disease) (kl : String) (v : Variant) : List Result :=
  (get_patient_groups v).flatMap (group_results d v kl)

/-- Results contributed by one disease. -/
def disease_results (kl : String) (d : Disease) : List Result :=
  d.type_variant.flatMap (variant_results d kl)

/-- `search_methods_by_keyword`. -/
def search_methods_by_keyword (kb : KnowledgeBase) (keyword : String) : List Result :=
  kb.disease.flatMap (disease_results (pyLower keyword))

/-- Matching condition of the spec for an alternative method, written
field by field: the lowercased keyword occurs in the lowercase form of
the method name, of some indication, of some medicine, of some
material, or of the recommendations string. -/
def spec_alt_match (K : String) (m : Method) : Bool :=
  kwInStr (pyLower K) (m.nameMethod.getD "")
  || (m.indications.getD []).any (kwInStr (pyLower K))
  || (m.medicines.getD []).any (kwInStr (pyLower K))
  || (m.usedMaterial.getD []).any (kwInStr (pyLower K))
  || kwInStr (pyLower K) (m.recommendations.getD "")

/-- Matching condition of the spec for a joint block: the keyword
occurs in the block-level indications or recommendations, or in some
contained method's name, medicines, or materials — contained methods'
indications are not consulted. -/
def spec_joint_match (K : String) (j : Joint) : Bool :=
  (j.indications.getD []).any (kwInStr (pyLower K))
  || kwInStr (pyLower K) (j.recommendations.getD "")
  || (j.methods.getD []).any (fun m =>
      kwInStr (pyLower K) (m.nameMethod.getD "")
      || (m.medicines.getD []).any (kwInStr (pyLower K))
      || (m.usedMaterial.getD []).any (kwInStr (pyLower K)))

theorem spec_alt_match_eq (K : String) (m : Method) :
    spec_alt_match K m = method_matches m (pyLower K) := by
  simp [spec_alt_match, method_matches, methodFields, Bool.or_assoc]

theorem spec_joint_match_eq (K : String) (j : Joint) :
    spec_joint_match K j = joint_matches j (pyLower K) := by
  simp [spec_joint_match, joint_matches, jointMethodFields, Bool.or_assoc]

theorem mem_alt_part {d : Disease} {v : Variant} {grp : GroupEntry} {kl : String}
    {st : Stage} {r : Result} :
    r ∈ alt_part d v grp kl st ↔
      ∃ m ∈ st.alternativeMethods.getD [], method_matches m kl = true ∧
        r = format_method_result m d v grp st.name_stage "alternative" := by
  simp only [alt_part, List.mem_map, List.mem_filter]
  constructor
  · rintro ⟨m, ⟨hm, hmm⟩, rfl⟩
    exact ⟨m, hm, hmm, rfl⟩
  · rintro ⟨m, hm, hmm, rfl⟩
    exact ⟨m, ⟨hm, hmm⟩, rfl⟩

theorem mem_joint_part {d : Disease} {v : Variant} {grp : GroupEntry} {kl : String}
    {st : Stage} {r : Result} :
    r ∈ joint_part d v grp kl st ↔
      ∃ j, st.jointMethods = some j ∧ jointTruthy j = true ∧ joint_matches j kl = true ∧
        r = format_joint_result j d v grp st.name_stage := by
  cases h : st.jointMethods with
  | none => simp [joint_part, h]
  | some j =>
      simp only [joint_part, h, Option.some.injEq]
      by_cases hc : (jointTruthy j && joint_matches j kl) = true
      · rw [if_pos hc]
        rcases (by simpa using hc : jointTruthy j = true ∧ joint_matches j kl = true)
          with ⟨h₁, h₂⟩
        simp only [List.mem_singleton]
        constructor
        · rintro rfl
          exact ⟨j, rfl, h₁, h₂, rfl⟩
        · rintro ⟨j', rfl, _, _, rfl⟩
          rfl
      · rw [if_neg hc]
        simp only [List.not_mem_nil, false_iff]
        rintro ⟨j', rfl, h₁, h₂, rfl⟩
        exact hc (by simp [h₁, h₂])

theorem mem_search {kb : KnowledgeBase} {K : String} {r : Result} :
    r ∈ search_methods_by_keyword kb K ↔
      ∃ d ∈ kb.disease, ∃ v ∈ d.type_variant, ∃ grp ∈ get_patient_groups v,
        ∃ st ∈ grp.data.stage.getD [],
          r ∈ alt_part d v grp (pyLower K) st ∨ r ∈ joint_part d v grp (pyLower K) st := by
  simp [search_methods_by_keyword, disease_results, variant_results, group_results,
    stage_results, List.mem_flatMap, List.mem_append]

theorem rtype_format_joint (j : Joint) (d : Disease) (v : Variant) (grp : GroupEntry)
    (sn : String) : (format_joint_result j d v grp sn).rtype = "joint" :=
  rfl

theorem rtype_format_method (m : Method) (d : Disease) (v : Variant) (grp : GroupEntry)
    (sn t : String) : (format_method_result m d v grp sn t).rtype = t :=
  rfl

/-- C1: for every loaded document and keyword `K`, every occurrence of
an alternative method `M` whose name, some indication, some medicine,
some material, or recommendations contains `K` case-insensitively
produces its formatted result in `search_methods_by_keyword K`; and
every alternative-type result of the search arises from such a matching
occurrence, so methods for which no checked field matches are excluded. -/
theorem C1_alt_search_iff (kb : KnowledgeBase) (K : String) :
    (∀ d ∈ kb.disease, ∀ v ∈ d.type_variant, ∀ grp ∈ get_patient_groups v,
      ∀ st ∈ grp.data.stage.getD [], ∀ m ∈ st.alternativeMethods.getD [],
        spec_alt_match K m = true →
          format_method_result m d v grp st.name_stage "alternative"
            ∈ search_methods_by_keyword kb K)
    ∧ (∀ r ∈ search_methods_by_keyword kb K, r.rtype = "alternative" →
        ∃ d ∈ kb.disease, ∃ v ∈ d.type_variant, ∃ grp ∈ get_patient_groups v,
          ∃ st ∈ grp.data.stage.getD [], ∃ m ∈ st.alternativeMethods.getD [],
            spec_alt_match K m = true ∧
            r = format_method_result m d v grp st.name_stage "alternative") := by
  constructor
  · intro d hd v hv grp hg st hst m hm hmatch
    have hmm : method_matches m (pyLower K) = true := (spec_alt_match_eq K m) ▸ hmatch
    exact mem_search.mpr
      ⟨d, hd, v, hv, grp, hg, st, hst, Or.inl (mem_alt_part.mpr ⟨m, hm, hmm, rfl⟩)⟩
  · intro r hr hty
    rcases mem_search.mp hr with ⟨d, hd, v, hv, grp, hg, st, hst, hcase⟩
    rcases hcase with halt | hjoint
    · rcases mem_alt_part.mp halt with ⟨m, hm, hmm, hre⟩
      exact ⟨d, hd, v, hv, grp, hg, st, hst, m, hm, (spec_alt_match_eq K m) ▸ hmm, hre⟩
    · rcases mem_joint_part.mp hjoint with ⟨j, _, _, _, hre⟩
      rw [hre, rtype_format_joint] at hty
      exact absurd hty (by decide)

/-- C2: for every loaded document and keyword `K`, a (non-empty) joint
block produces its formatted result in the search output exactly when
`K` occurs case-insensitively in the block-level indications or
recommendations, or in a contained method's name, medicines, or
materials; a keyword present only in a contained method's indications
does not match, since `spec_joint_match` never consults them. -/
theorem C2_joint_search_iff (kb : KnowledgeBase) (K : String) :
    (∀ d ∈ kb.disease, ∀ v ∈ d.type_variant, ∀ grp ∈ get_patient_groups v,
      ∀ st ∈ grp.data.stage.getD [], ∀ j, st.jointMethods = some j →
        jointTruthy j = true → spec_joint_match K j = true →
          format_joint_result j d v grp st.name_stage ∈ search_methods_by_keyword kb K)
    ∧ (∀ r ∈ search_methods_by_keyword kb K, r.rtype = "joint" →
        ∃ d ∈ kb.disease, ∃ v ∈ d.type_variant, ∃ grp ∈ get_patient_groups v,
          ∃ st ∈ grp.data.stage.getD [], ∃ j, st.jointMethods = some j ∧
            jointTruthy j = true ∧ spec_joint_match K j = true ∧
            r = format_joint_result j d v grp st.name_stage) := by
  constructor
  · intro d hd v hv grp hg st hst j hj htr hmatch
    have hmm : joint_matches j (pyLower K) = true := (spec_joint_match_eq K j) ▸ hmatch
    exact mem_search.mpr
      ⟨d, hd, v, hv, grp, hg, st, hst, Or.inr (mem_joint_part.mpr ⟨j, hj, htr, hmm, rfl⟩)⟩
  · intro r hr hty
    rcases mem_search.mp hr with ⟨d, hd, v, hv, grp, hg, st, hst, hcase⟩
    rcases hcase with halt | hjoint
    · rcases mem_alt_part.mp halt with ⟨m, _, _, hre⟩
      rw [hre, rtype_format_method] at hty
      exact absurd hty (by decide)
    · rcases mem_joint_part.mp hjoint with ⟨j, hj, htr, hmm, hre⟩
      exact ⟨d, hd, v, hv, grp, hg, st, hst, j, hj, htr,
        (spec_joint_match_eq K j) ▸ hmm, hre⟩

/-- Concrete sample documents used by the witnesses. -/
def wMethod : Method :=
  ⟨some "Cast immobilization", none, some ["Ibuprofen"], none, none, none, none, none⟩

def wJMethod : Method :=
  ⟨some "Plaster fixation", some ["nested indication"], some ["Gypsum"], none, none, none,
    none, none⟩

def wJoint : Joint :=
  ⟨some ["block indication"], some "block recommendation", some [wJMethod]⟩

def wStage : Stage := ⟨"Conservative treatment", some [wMethod], some wJoint⟩

def wGroup : Group := ⟨some "Adults without comorbidity", some [wStage]⟩

def wVariant : Variant := ⟨"Type A", "S52.5", [("varik1", .groups [wGroup])]⟩

def wDisease : Disease := ⟨"Closed fracture", [wVariant]⟩

def wDoc : KnowledgeBase := ⟨[wDisease]⟩

def wEntry : GroupEntry := mkGroupEntry "varik1" 0 wGroup

theorem C1_alt_search_iff_witness :
    format_method_result wMethod wDisease wVariant wEntry "Conservative treatment"
      "alternative" ∈ search_methods_by_keyword wDoc "Ibuprofen" :=
  (C1_alt_search_iff wDoc "Ibuprofen").1 wDisease (by decide) wVariant (by decide)
    wEntry (by decide) wStage (by decide) wMethod (by decide) (by decide)

theorem C2_joint_search_iff_witness :
    format_joint_result wJoint wDisease wVariant wEntry "Conservative treatment"
      ∈ search_methods_by_keyword wDoc "Gypsum" :=
  (C2_joint_search_iff wDoc "Gypsum").1 wDisease (by decide) wVariant (by decide)
    wEntry (by decide) wStage (by decide) wJoint rfl (by decide) (by decide)

/-- C5: `get_group_plan` copies the group's `stage` field into
`stages` unchanged when present, and defaults it to the empty list when
absent; no other transformation is applied to the stage list. -/
theorem C5_group_plan_stages (variant_name : String) (g : Group) :
    (∀ s, g.stage = some s → (get_group_plan variant_name g).stages = s)
    ∧ (g.stage = none → (get_group_plan variant_name g).stages = []) := by
  constructor
  · intro s hs
    simp [get_group_plan, hs]
  · intro hs
    simp [get_group_plan, hs]

theorem C5_group_plan_stages_witness :
    (get_group_plan "Type A" wGroup).stages = [wStage] :=
  (C5_group_plan_stages "Type A" wGroup).1 [wStage] rfl

/-- C6: `get_diseases` is exactly the disease names in source-document
order, and when disease names are pairwise distinct (the spec assumes
uniqueness) each loaded disease's name occurs exactly once. -/
theorem C6_list_diseases (kb : KnowledgeBase) :
    get_diseases kb = kb.disease.map Disease.name
    ∧ ((kb.disease.map Disease.name).Nodup →
        ∀ d ∈ kb.disease, (get_diseases kb).count d.name = 1) := by
  refine ⟨rfl, ?_⟩
  intro hnd d hd
  exact List.count_eq_one_of_mem hnd (List.mem_map_of_mem Disease.name hd)

theorem C6_list_diseases_witness : (get_diseases wDoc).count "Closed fracture" = 1 :=
  (C6_list_diseases wDoc).2 (by decide) wDisease (by decide)

theorem variantScan_not_found {ds : List Disease} {n : String}
    (h : ∀ d ∈ ds, d.name ≠ n) : variantScan ds n = [] := by
  induction ds with
  | nil => rfl
  | cons d ds ih =>
      have hne : d.name ≠ n := h d (List.mem_cons_self d ds)
      simp only [variantScan, if_neg hne]
      exact ih fun d' hd' => h d' (List.mem_cons_of_mem d hd')

theorem variantScan_found {ds : List Disease} {n : String} {d : Disease}
    (hnd : (ds.map Disease.name).Nodup) (hd : d ∈ ds) (hn : d.name = n) :
    variantScan ds n = d.type_variant := by
  induction ds with
  | nil => cases hd
  | cons e ds ih =>
      rcases List.mem_cons.mp hd with rfl | hd'
      · simp only [variantScan, if_pos hn]
      · have hmem : d.name ∈ ds.map Disease.name := List.mem_map_of_mem Disease.name hd'
        have hne : e.name ≠ n := by
          intro he
          have : e.name ∈ ds.map Disease.name := by
            rw [he, ← hn]
            exact hmem
          exact (List.nodup_cons.mp (by simpa using hnd)).1 this
        simp only [variantScan, if_neg hne]
        exact ih (List.nodup_cons.mp (by simpa using hnd)).2 hd'

/-- C7: looking up a disease name that matches no disease returns the
empty list and no error; a name that matches a disease (names being
unique) returns that disease's variant list. -/
theorem C7_get_variants (kb : KnowledgeBase) (n : String) :
    ((∀ d ∈ kb.disease, d.name ≠ n) → get_disease_variants kb n = [])
    ∧ (∀ d ∈ kb.disease, d.name = n → (kb.disease.map Disease.name).Nodup →
        get_disease_variants kb n = d.type_variant) := by
  constructor
  · intro h
    exact variantScan_not_found h
  · intro d hd hn hnd
    exact variantScan_found hnd hd hn

theorem C7_get_variants_witness :
    get_disease_variants wDoc "No such disease" = []
    ∧ get_disease_variants wDoc "Closed fracture" = [wVariant] := by
  constructor
  · exact (C7_get_variants wDoc "No such disease").1 (by decide)
  · exact (C7_get_variants wDoc "Closed fracture").2 wDisease (by decide) rfl (by decide)

/-- A method with every C8-relevant optional field replaced by its
explicit default (empty list / empty string); the name is left alone
because C8 does not list it and its two read sites use different
defaults. -/
def fillMethod (m : Method) : Method where
  nameMethod := m.nameMethod
  indications := some (m.indications.getD [])
  medicines := some (m.medicines.getD [])
  usedMaterial := some (m.usedMaterial.getD [])
  recommendations := some (m.recommendations.getD "")
  pages := some (m.pages.getD [])
  persuasiveness := some (m.persuasiveness.getD "")
  evidence := some (m.evidence.getD "")

/-- A joint block with its block-level optional fields replaced by
their explicit defaults. -/
def fillJoint (j : Joint) : Joint where
  indications := some (j.indications.getD [])
  recommendations := some (j.recommendations.getD "")
  methods := some (j.methods.getD [])

/-- C8: matching and result formatting treat every missing optional
field exactly as the corresponding empty value: replacing absent
fields by explicit defaults — at the method level, the joint-block
level, inside a joint block's nested methods, for an absent
joint-methods key (Python reads it as the empty dict), for an absent
alternative-methods list, and for an absent stage list — never changes
the outcome, and (all operations being total functions) no error is
possible. -/
theorem C8_missing_fields_default (kl : String) (m : Method) (j : Joint) (d : Disease)
    (v : Variant) (grp : GroupEntry) (sn t i0 desc0 : String)
    (alt : Option (List Method)) (jm : Option Joint) (pi : Option String)
    (stg : Option (List Stage)) :
    method_matches (fillMethod m) kl = method_matches m kl
    ∧ format_method_result (fillMethod m) d v grp sn t = format_method_result m d v grp sn t
    ∧ joint_matches (fillJoint j) kl = joint_matches j kl
    ∧ format_joint_result (fillJoint j) d v grp sn = format_joint_result j d v grp sn
    ∧ joint_matches ⟨j.indications, j.recommendations,
        some ((j.methods.getD []).map fillMethod)⟩ kl = joint_matches j kl
    ∧ stage_results d v grp kl ⟨sn, some (alt.getD []), jm⟩
        = stage_results d v grp kl ⟨sn, alt, jm⟩
    ∧ joint_part d v grp kl ⟨sn, alt, some ⟨none, none, none⟩⟩
        = joint_part d v grp kl ⟨sn, alt, none⟩
    ∧ group_results d v kl ⟨i0, desc0, ⟨pi, some (stg.getD [])⟩⟩
        = group_results d v kl ⟨i0, desc0, ⟨pi, stg⟩⟩ := by
  refine ⟨?_, ?_, ?_, ?_, ?_, ?_, ?_, ?_⟩
  · simp [method_matches, methodFields, fillMethod]
  · simp [format_method_result, fillMethod]
  · simp [joint_matches, fillJoint]
  · simp [format_joint_result, fillJoint]
  · simp only [joint_matches, Option.getD_some, List.any_map]
    have hfun : (fun m => (jointMethodFields m).any fun f => kwInStr kl f) ∘ fillMethod
        = fun m => (jointMethodFields m).any fun f => kwInStr kl f := by
      funext m
      simp [Function.comp, fillMethod, jointMethodFields]
    rw [hfun]
  · simp [stage_results, alt_part, joint_part]
  · simp [joint_part, jointTruthy]
  · simp only [group_results]
    rw [Option.getD_some]
    exact congrArg ((stg.getD []).flatMap) (funext fun st => rfl)

/-- Value of a variant-record field that contributes nothing to
`get_patient_groups`: an empty list, or any non-list value. -/
def noGroupContent : FieldVal → Bool
  | .groups gs => gs.isEmpty
  | .scalar _ => true

theorem fieldEntries_eq_nil {kv : String × FieldVal}
    (h : str_starts "varik" kv.1 = true → noGroupContent kv.2 = true) :
    fieldEntries kv = [] := by
  rcases kv with ⟨k, val⟩
  cases val with
  | scalar s => rfl
  | groups gs =>
      by_cases hp : str_starts "varik" k = true
      · have : gs.isEmpty = true := h hp
        have hgs : gs = [] := List.isEmpty_iff.mp this
        subst hgs
        simp [fieldEntries]
      · simp [fieldEntries, Bool.eq_false_iff.mpr hp]

theorem flatMap_fieldEntries_nil :
    ∀ fs : List (String × FieldVal),
      (∀ kv ∈ fs, str_starts "varik" kv.1 = true → noGroupContent kv.2 = true) →
        fs.flatMap fieldEntries = []
  | [], _ => rfl
  | kv :: kvs, h => by
      rw [List.flatMap_cons, fieldEntries_eq_nil (h kv (List.mem_cons_self kv kvs)),
        List.nil_append]
      exact flatMap_fieldEntries_nil kvs fun kv' h' => h kv' (List.mem_cons_of_mem kv h')

/-- C9: a group field holding an empty list (or a non-list value)
contributes no entries to `get_patient_groups` — removing it from the
variant record leaves the result unchanged — and a variant whose group
fields all hold empty lists (or non-lists) yields the empty sequence,
so no synthetic id is ever generated for such a field. -/
theorem C9_empty_group_fields (v : Variant) :
    (∀ pre post k, v.fields = pre ++ ((k, FieldVal.groups []) :: post) →
        get_patient_groups v = get_patient_groups ⟨v.name, v.icd, pre ++ post⟩)
    ∧ (∀ pre post k s, v.fields = pre ++ ((k, FieldVal.scalar s) :: post) →
        get_patient_groups v = get_patient_groups ⟨v.name, v.icd, pre ++ post⟩)
    ∧ ((∀ kv ∈ v.fields, str_starts "varik" kv.1 = true → noGroupContent kv.2 = true) →
        get_patient_groups v = []) := by
  refine ⟨?_, ?_, ?_⟩
  · intro pre post k hv
    have h1 : fieldEntries (k, FieldVal.groups []) = [] := fieldEntries_eq_nil fun _ => rfl
    simp [get_patient_groups, hv, h1]
  · intro pre post k s hv
    have h1 : fieldEntries (k, FieldVal.scalar s) = [] := fieldEntries_eq_nil fun _ => rfl
    simp [get_patient_groups, hv, h1]
  · intro h
    exact flatMap_fieldEntries_nil v.fields h

theorem C9_empty_group_fields_witness :
    get_patient_groups ⟨"Type A", "S52.5",
      [("varik1", FieldVal.groups []), ("varik2", FieldVal.scalar "x")]⟩ = [] :=
  (C9_empty_group_fields _).2.2 (by decide)

theorem occursIn_nil (l : List Char) : occursIn [] l = true := by
  induction l with
  | nil => rfl
  | cons c cs ih => simp [occursIn, leadsWith]

theorem kwInStr_nil (s : String) : kwInStr "" s = true :=
  occursIn_nil _

theorem method_matches_nil (m : Method) : method_matches m "" = true := by
  simp [method_matches, methodFields, kwInStr_nil]

theorem joint_matches_nil (j : Joint) : joint_matches j "" = true := by
  simp [joint_matches, kwInStr_nil]

/-- Every stage reachable by the search traversal, in traversal order. -/
def all_stages (kb : KnowledgeBase) : List Stage :=
  kb.disease.flatMap fun d => d.type_variant.flatMap fun v =>
    (get_patient_groups v).flatMap fun grp => grp.data.stage.getD []

/-- Number of alternative methods of a stage. -/
def stage_alt_count (st : Stage) : Nat :=
  (st.alternativeMethods.getD []).length

/-- One if the stage's joint block is present and non-empty (Python
truthiness), zero otherwise. -/
def stage_joint_count (st : Stage) : Nat :=
  match st.jointMethods with
  | some j => if jointTruthy j then 1 else 0
  | none => 0

theorem length_flatMap_sum {α β : Type} (l : List α) (f : α → List β) :
    (l.flatMap f).length = (l.map fun a => (f a).length).sum := by
  induction l with
  | nil => rfl
  | cons a l ih => simp [ih]

theorem sum_map_flatMap {α β : Type} (l : List α) (f : α → List β) (g : β → Nat) :
    ((l.flatMap f).map g).sum = (l.map fun a => ((f a).map g).sum).sum := by
  induction l with
  | nil => rfl
  | cons a l ih => simp [ih]

theorem sum_map_add_split {α : Type} (l : List α) (f g : α → Nat) :
    (l.map fun a => f a + g a).sum = (l.map f).sum + (l.map g).sum := by
  induction l with
  | nil => rfl
  | cons a l ih =>
      simp only [List.map_cons, List.sum_cons, ih]
      omega

/-- C10: searching with the empty keyword yields exactly one result for
every alternative method reachable in the document and one for every
non-empty joint block, since the empty string occurs in every field. -/
theorem C10_empty_keyword (kb : KnowledgeBase) :
    (search_methods_by_keyword kb "").length
      = ((all_stages kb).map stage_alt_count).sum
        + ((all_stages kb).map stage_joint_count).sum := by
  have hstage : ∀ (d : Disease) (v : Variant) (grp : GroupEntry) (st : Stage),
      (stage_results d v grp "" st).length = stage_alt_count st + stage_joint_count st := by
    intro d v grp st
    have halt : (alt_part d v grp "" st).length = stage_alt_count st := by
      simp only [alt_part, List.length_map, stage_alt_count]
      rw [List.filter_eq_self.mpr fun m _ => method_matches_nil m]
    have hjoint : (joint_part d v grp "" st).length = stage_joint_count st := by
      cases h : st.jointMethods with
      | none => simp [joint_part, stage_joint_count, h]
      | some j =>
          by_cases ht : jointTruthy j = true
          · simp [joint_part, stage_joint_count, h, ht, joint_matches_nil]
          · simp [joint_part, stage_joint_count, h,
              Bool.eq_false_iff.mpr ht, joint_matches_nil]
    simp [stage_results, halt, hjoint]
  have hpy : pyLower "" = "" := rfl
  calc (search_methods_by_keyword kb "").length
      = ((all_stages kb).map fun st => stage_alt_count st + stage_joint_count st).sum := by
        simp only [search_methods_by_keyword, hpy, all_stages]
        rw [length_flatMap_sum, sum_map_flatMap]
        refine congrArg List.sum (List.map_congr_left fun d hd => ?_)
        simp only [disease_results]
        rw [length_flatMap_sum, sum_map_flatMap]
        refine congrArg List.sum (List.map_congr_left fun v hv => ?_)
        simp only [variant_results]
        rw [length_flatMap_sum, sum_map_flatMap]
        refine congrArg List.sum (List.map_congr_left fun grp hgrp => ?_)
        simp only [group_results]
        rw [length_flatMap_sum]
        exact congrArg List.sum (List.map_congr_left fun st hst => hstage d v grp st)
    _ = _ := sum_map_add_split _ _ _

theorem digitChar_ne_underscore (n : Nat) : Nat.digitChar n ≠ '_' := by
  by_cases h : n < 16
  · interval_cases n <;> decide
  · have hstar : Nat.digitChar n = '*' := by
      unfold Nat.digitChar
      repeat rw [if_neg (by omega)]
    rw [hstar]
    decide

theorem toDigitsCore_acc (b : Nat) :
    ∀ (fuel n : Nat) (acc : List Char),
      Nat.toDigitsCore b fuel n acc = Nat.toDigitsCore b fuel n [] ++ acc
  | 0, _, _ => by simp [Nat.toDigitsCore]
  | fuel + 1, n, acc => by
      simp only [Nat.toDigitsCore]
      by_cases h : n / b = 0
      · simp [h]
      · rw [if_neg h, if_neg h,
          toDigitsCore_acc b fuel (n / b) (Nat.digitChar (n % b) :: acc),
          toDigitsCore_acc b fuel (n / b) [Nat.digitChar (n % b)]]
        simp

theorem toDigitsCore_eq_digits :
    ∀ (fuel n : Nat), 0 < n → n < fuel →
      Nat.toDigitsCore 10 fuel n [] = ((Nat.digits 10 n).map Nat.digitChar).reverse
  | 0, n, _, hf => by omega
  | fuel + 1, n, h0, hf => by
      have hdig : Nat.digits 10 n = n % 10 :: Nat.digits 10 (n / 10) :=
        Nat.digits_def' (by norm_num) h0
      simp only [Nat.toDigitsCore]
      by_cases h : n / 10 = 0
      · rw [if_pos h, hdig, h]
        simp
      · have hlt : n / 10 < n := Nat.div_lt_self h0 (by norm_num)
        rw [if_neg h,
          toDigitsCore_acc 10 fuel (n / 10) [Nat.digitChar (n % 10)],
          toDigitsCore_eq_digits fuel (n / 10) (Nat.pos_of_ne_zero h) (by omega), hdig]
        simp

theorem toDigits_ten (n : Nat) :
    Nat.toDigits 10 n = if n = 0 then ['0']
      else ((Nat.digits 10 n).map Nat.digitChar).reverse := by
  by_cases h : n = 0
  · subst h
    rw [if_pos rfl]
    decide
  · rw [if_neg h]
    exact toDigitsCore_eq_digits (n + 1) n (Nat.pos_of_ne_zero h) (Nat.lt_succ_self n)

theorem repr_data (n : Nat) :
    (Nat.repr n).data = if n = 0 then ['0']
      else ((Nat.digits 10 n).map Nat.digitChar).reverse := by
  have h : (Nat.repr n).data = Nat.toDigits 10 n := rfl
  rw [h, toDigits_ten]

theorem repr_no_underscore (n : Nat) : ∀ c ∈ (Nat.repr n).data, c ≠ '_' := by
  intro c hc
  rw [repr_data] at hc
  by_cases h : n = 0
  · rw [if_pos h] at hc
    simp only [List.mem_singleton] at hc
    subst hc
    decide
  · rw [if_neg h, List.mem_reverse] at hc
    rcases List.mem_map.mp hc with ⟨d, _, rfl⟩
    exact digitChar_ne_underscore d

theorem digitChar_inj_lt :
    ∀ a < 10, ∀ b < 10, Nat.digitChar a = Nat.digitChar b → a = b := by
  decide

theorem map_digitChar_inj :
    ∀ {l₁ l₂ : List Nat}, (∀ d ∈ l₁, d < 10) → (∀ d ∈ l₂, d < 10) →
      l₁.map Nat.digitChar = l₂.map Nat.digitChar → l₁ = l₂
  | [], [], _, _, _ => rfl
  | [], _ :: _, _, _, h => by simp at h
  | _ :: _, [], _, _, h => by simp at h
  | a :: l₁, b :: l₂, h₁, h₂, h => by
      simp only [List.map_cons, List.cons.injEq] at h
      have hab : a = b :=
        digitChar_inj_lt a (h₁ a (List.mem_cons_self a l₁))
          b (h₂ b (List.mem_cons_self b l₂)) h.1
      subst hab
      rw [map_digitChar_inj (fun d hd => h₁ d (List.mem_cons_of_mem a hd))
        (fun d hd => h₂ d (List.mem_cons_of_mem a hd)) h.2]

theorem digits_map_reverse_ne_zero {n : Nat} (hn : n ≠ 0) :
    ((Nat.digits 10 n).map Nat.digitChar).reverse ≠ ['0'] := by
  intro h
  have h1 : (Nat.digits 10 n).map Nat.digitChar = ['0'] := by
    have h2 := congrArg List.reverse h
    simpa using h2
  rcases hl : Nat.digits 10 n with _ | ⟨d, rest⟩
  · rw [hl] at h1
    simp at h1
  · rw [hl] at h1
    simp only [List.map_cons, List.cons.injEq] at h1
    have hrest : rest = [] := by
      rcases rest with _ | ⟨r, rs⟩
      · rfl
      · simp at h1
    subst hrest
    have hd10 : d < 10 :=
      Nat.digits_lt_base (by norm_num) (by rw [hl]; exact List.mem_cons_self d [])
    have hd0 : d = 0 :=
      digitChar_inj_lt d hd10 0 (by norm_num) (by rw [h1.1]; rfl)
    subst hd0
    have hzero : n = Nat.ofDigits 10 (Nat.digits 10 n) := (Nat.ofDigits_digits 10 n).symm
    rw [hl] at hzero
    simp [Nat.ofDigits_cons, Nat.ofDigits_nil] at hzero
    exact hn hzero

theorem repr_inj {m n : Nat} (h : Nat.repr m = Nat.repr n) : m = n := by
  have hd : (Nat.repr m).data = (Nat.repr n).data := congrArg String.data h
  rw [repr_data, repr_data] at hd
  by_cases hm : m = 0 <;> by_cases hn : n = 0
  · rw [hm, hn]
  · rw [if_pos hm, if_neg hn] at hd
    exact absurd hd.symm (digits_map_reverse_ne_zero hn)
  · rw [if_neg hm, if_pos hn] at hd
    exact absurd hd (digits_map_reverse_ne_zero hm)
  · rw [if_neg hm, if_neg hn] at hd
    have h1 : (Nat.digits 10 m).map Nat.digitChar = (Nat.digits 10 n).map Nat.digitChar :=
      List.reverse_inj.mp hd
    have h2 : Nat.digits 10 m = Nat.digits 10 n :=
      map_digitChar_inj (fun d hd' => Nat.digits_lt_base (by norm_num) hd')
        (fun d hd' => Nat.digits_lt_base (by norm_num) hd') h1
    calc m = Nat.ofDigits 10 (Nat.digits 10 m) := (Nat.ofDigits_digits 10 m).symm
      _ = Nat.ofDigits 10 (Nat.digits 10 n) := by rw [h2]
      _ = n := Nat.ofDigits_digits 10 n

theorem append_underscore_split :
    ∀ (a c b d : List Char), (∀ x ∈ a, x ≠ '_') → (∀ x ∈ c, x ≠ '_') →
      a ++ '_' :: b = c ++ '_' :: d → a = c ∧ b = d
  | [], [], b, d, _, _, h => by
      simp only [List.nil_append, List.cons.injEq] at h
      exact ⟨rfl, h.2⟩
  | [], x :: c, b, d, _, hc, h => by
      simp only [List.nil_append, List.cons_append, List.cons.injEq] at h
      exact absurd h.1.symm (hc x (List.mem_cons_self x c))
  | x :: a, [], b, d, ha, _, h => by
      simp only [List.nil_append, List.cons_append, List.cons.injEq] at h
      exact absurd h.1 (ha x (List.mem_cons_self x a))
  | x :: a, y :: c, b, d, ha, hc, h => by
      simp only [List.cons_append, List.cons.injEq] at h
      obtain ⟨rfl, h2⟩ := h
      have hrec := append_underscore_split a c b d
        (fun z hz => ha z (List.mem_cons_of_mem x hz))
        (fun z hz => hc z (List.mem_cons_of_mem x hz)) h2
      exact ⟨by rw [hrec.1], hrec.2⟩

theorem mkId_data (k : String) (i : Nat) :
    (mkId k i).data = k.data ++ '_' :: (Nat.repr i).data := by
  show (k ++ "_" ++ Nat.repr i).data = _
  rw [String.data_append, String.data_append, List.append_assoc]
  rfl

theorem mkId_inj {k₁ k₂ : String} {i₁ i₂ : Nat} (h : mkId k₁ i₁ = mkId k₂ i₂) :
    k₁ = k₂ ∧ i₁ = i₂ := by
  have hd : k₁.data ++ '_' :: (Nat.repr i₁).data
      = k₂.data ++ '_' :: (Nat.repr i₂).data := by
    rw [← mkId_data, ← mkId_data, h]
  have hrev : (Nat.repr i₁).data.reverse ++ '_' :: k₁.data.reverse
      = (Nat.repr i₂).data.reverse ++ '_' :: k₂.data.reverse := by
    have h2 := congrArg List.reverse hd
    simpa [List.reverse_append] using h2
  obtain ⟨h1, h2⟩ := append_underscore_split _ _ _ _
    (fun x hx => repr_no_underscore i₁ x (List.mem_reverse.mp hx))
    (fun x hx => repr_no_underscore i₂ x (List.mem_reverse.mp hx)) hrev
  refine ⟨String.ext (List.reverse_inj.mp h2), repr_inj (String.ext (List.reverse_inj.mp h1))⟩

theorem entriesFrom_map_id (k : String) :
    ∀ (i : Nat) (gs : List Group),
      (entriesFrom k i gs).map GroupEntry.id = (List.range' i gs.length).map (mkId k)
  | _, [] => rfl
  | i, g :: gs => by
      simp only [entriesFrom, List.map_cons, List.length_cons, List.range'_succ]
      rw [entriesFrom_map_id k (i + 1) gs]
      rfl

theorem mem_entriesFrom_id {k : String} :
    ∀ {i : Nat} {gs : List Group} {e : GroupEntry}, e ∈ entriesFrom k i gs →
      ∃ j, e.id = mkId k j
  | _, [], e, he => absurd he (List.not_mem_nil e)
  | i, g :: gs, e, he => by
      rcases List.mem_cons.mp he with rfl | h'
      · exact ⟨i, rfl⟩
      · exact mem_entriesFrom_id h'

theorem fieldEntries_ids_nodup (kv : String × FieldVal) :
    ((fieldEntries kv).map GroupEntry.id).Nodup := by
  rcases kv with ⟨k, val⟩
  cases val with
  | scalar s => simp [fieldEntries]
  | groups gs =>
      by_cases hc : (str_starts "varik" k && decide (0 < gs.length)) = true
      · simp only [fieldEntries, hc, if_true]
        rw [entriesFrom_map_id]
        exact List.Nodup.map (fun a b hab => (mkId_inj hab).2) (List.nodup_range' 0 gs.length)
      · simp [fieldEntries, hc]

theorem mem_fieldEntries_id {kv : String × FieldVal} {e : GroupEntry}
    (he : e ∈ fieldEntries kv) : ∃ i, e.id = mkId kv.1 i := by
  rcases kv with ⟨k, val⟩
  cases val with
  | scalar s => exact absurd he (List.not_mem_nil e)
  | groups gs =>
      by_cases hc : (str_starts "varik" k && decide (0 < gs.length)) = true
      · rw [show fieldEntries (k, FieldVal.groups gs)
            = entriesFrom k 0 gs from by simp [fieldEntries, hc]] at he
        exact mem_entriesFrom_id he
      · rw [show fieldEntries (k, FieldVal.groups gs) = [] from by simp [fieldEntries, hc]] at he
        exact absurd he (List.not_mem_nil e)

/-- Patient-group traversal written from the spec's words: group-field
keys in the order they appear in the variant record, sub-list order
within each key, synthetic id `key_index`, display description
`patients_indications` defaulting to the placeholder string. -/
def spec_group_entries (v : Variant) : List GroupEntry :=
  v.fields.flatMap fun kv =>
    match kv.2 with
    | .groups gs =>
        if str_starts "varik" kv.1 then
          gs.enum.map fun p =>
            { id := kv.1 ++ "_" ++ Nat.repr p.1
              description := p.2.patients_indications.getD "Описание отсутствует"
              data := p.2 }
        else []
    | .scalar _ => []

theorem entriesFrom_eq_enumFrom (k : String) :
    ∀ (i : Nat) (gs : List Group),
      entriesFrom k i gs = (gs.enumFrom i).map fun p =>
        { id := k ++ "_" ++ Nat.repr p.1
          description := p.2.patients_indications.getD "Описание отсутствует"
          data := p.2 }
  | _, [] => rfl
  | i, g :: gs => by
      simp only [entriesFrom, List.enumFrom_cons, List.map_cons]
      rw [entriesFrom_eq_enumFrom k (i + 1) gs]
      rfl

theorem get_patient_groups_eq_spec (v : Variant) :
    get_patient_groups v = spec_group_entries v := by
  simp only [get_patient_groups, spec_group_entries]
  refine congrArg (List.flatMap v.fields) (funext fun kv => ?_)
  rcases kv with ⟨k, val⟩
  cases val with
  | scalar s => rfl
  | groups gs =>
      cases gs with
      | nil => simp [fieldEntries, List.enum]
      | cons g gs' =>
          by_cases hp : str_starts "varik" k = true
          · have hlen : decide (0 < (g :: gs').length) = true := by simp
            simp only [fieldEntries, hp, hlen, Bool.and_self, if_true,
              entriesFrom_eq_enumFrom, List.enum]
          · simp [fieldEntries, hp]

/-- C3: `get_patient_groups` returns exactly the groups of the
variant's group fields, ordered by field key in record order and by
sub-list order within a key, with synthetic id `key_index` and the
description defaulting to the placeholder (this is
`spec_group_entries`, written from the spec); and when the record's
keys are distinct (as Python dict keys are) the synthetic ids are
pairwise distinct within the variant. -/
theorem C3_patient_groups (v : Variant)
    (hkeys : (v.fields.map Prod.fst).Nodup) :
    get_patient_groups v = spec_group_entries v
    ∧ ((get_patient_groups v).map GroupEntry.id).Nodup := by
  refine ⟨get_patient_groups_eq_spec v, ?_⟩
  simp only [get_patient_groups, List.map_flatMap]
  refine List.nodup_flatMap.mpr ⟨fun kv _ => fieldEntries_ids_nodup kv, ?_⟩
  have hp : v.fields.Pairwise fun kv kv' => kv.1 ≠ kv'.1 := List.pairwise_map.mp hkeys
  refine hp.imp ?_
  intro kv kv' hne x hx hx'
  rcases List.mem_map.mp hx with ⟨e, he, rfl⟩
  rcases List.mem_map.mp hx' with ⟨e', he', heq⟩
  rcases mem_fieldEntries_id he with ⟨i, hei⟩
  rcases mem_fieldEntries_id he' with ⟨i', hei'⟩
  apply hne
  have hids : mkId kv.1 i = mkId kv'.1 i' := by
    rw [← hei, ← hei']
    exact heq.symm
  exact (mkId_inj hids).1

theorem C3_patient_groups_witness :
    get_patient_groups ⟨"Type A", "S52.5",
        [("varik1", FieldVal.groups [wGroup, wGroup]), ("varik2", FieldVal.groups [wGroup])]⟩
      = spec_group_entries ⟨"Type A", "S52.5",
        [("varik1", FieldVal.groups [wGroup, wGroup]), ("varik2", FieldVal.groups [wGroup])]⟩
    ∧ ((get_patient_groups ⟨"Type A", "S52.5",
        [("varik1", FieldVal.groups [wGroup, wGroup]),
          ("varik2", FieldVal.groups [wGroup])]⟩).map GroupEntry.id).Nodup :=
  C3_patient_groups _ (by decide)

/-- The C4 scenario stage: one alternative method, no joint block. -/
def c4Stage : Stage := ⟨"Conservative treatment", some [wMethod], none⟩

def c4Group : Group := ⟨some "Adults without comorbidity", some [c4Stage]⟩

/-- The C4 scenario variant exactly as the claim words it: the single
group field is named `group1`. -/
def c4VariantClaim : Variant := ⟨"Type A", "S52.5", [("group1", .groups [c4Group])]⟩

def c4DocClaim : KnowledgeBase := ⟨[⟨"Closed fracture", [c4VariantClaim]⟩]⟩

/-- The C4 scenario with the group field renamed to `varik1`, the
prefix the code actually scans for. -/
def c4VariantAmended : Variant := ⟨"Type A", "S52.5", [("varik1", .groups [c4Group])]⟩

def c4DocAmended : KnowledgeBase := ⟨[⟨"Closed fracture", [c4VariantAmended]⟩]⟩

/-- C4 as stated is false: with the group field named `group1`,
`get_patient_groups` scans only keys with the `varik` prefix, so it
returns no entry (in particular none with id `group1_0`) and the
search for `ibuprofen` returns no result, although `get_diseases`
does return the one disease name. -/
theorem C4_counterexample :
    get_diseases c4DocClaim = ["Closed fracture"]
    ∧ get_patient_groups c4VariantClaim = []
    ∧ search_methods_by_keyword c4DocClaim "ibuprofen" = []
    ∧ ¬((get_patient_groups c4VariantClaim).map GroupEntry.id = ["group1_0"]
        ∧ (search_methods_by_keyword c4DocClaim "ibuprofen").map Result.method
            = ["Cast immobilization"]) := by
  decide

/-- C4 amended: with the single group field named `varik1`, the
scenario behaves as the claim describes — one disease name, exactly
one group entry whose id is `varik1_0`, and exactly one search result
for `ibuprofen` whose method is `Cast immobilization`. -/
theorem C4_amended_scenario :
    get_diseases c4DocAmended = ["Closed fracture"]
    ∧ (get_patient_groups c4VariantAmended).map GroupEntry.id = ["varik1_0"]
    ∧ (search_methods_by_keyword c4DocAmended "ibuprofen").map Result.method
        = ["Cast immobilization"] := by
  decide

end BaseView
